import Mathlib

/-!
Shallow embedding of the job-tracking core of `app.py` (a Flask front end
over yt-dlp): the in-memory progress registry `download_progress` and the
records written to it, the yt-dlp progress hook, the download worker, the
URL cleaning and validation helpers, the stale-file reaper and the read
endpoints.  Python dicts are modelled as association lists of JSON-ish
values, so that a write that omits a key really removes that key (dict
replacement, not merge), and Python float arithmetic on byte counts is
modelled over `ℚ`.
-/

attribute [local semireducible] Rat.mul Rat.add Rat.sub Rat.inv

/-- A JSON-ish value stored in a registry record. -/
inductive JVal where
  | s (v : String)
  | q (v : ℚ)
  | null
deriving DecidableEq, Repr

/-- A Python dict as stored in `download_progress`: an association list. -/
abbrev JDict := List (String × JVal)

/-- The module-level `download_progress` dict: job id → record. -/
abbrev Registry := List (String × JDict)

/-- Dict read `download_progress.get(id)`. -/
def regGet (r : Registry) (id : String) : Option JDict :=
  List.lookup id r

/-- Dict write `download_progress[id] = rec`: wholesale replacement of the
stored record (last write wins on lookup). -/
def regSet (r : Registry) (id : String) (rec : JDict) : Registry :=
  (id, rec) :: r

/-- Round-half-to-even to an integer, the rounding rule of Python `round`,
stated over `ℚ`. -/
def rhe (x : ℚ) : ℤ :=
  if x - (⌊x⌋ : ℚ) < 1 / 2 then ⌊x⌋
  else if 1 / 2 < x - (⌊x⌋ : ℚ) then ⌊x⌋ + 1
  else if ⌊x⌋ % 2 = 0 then ⌊x⌋ else ⌊x⌋ + 1

/-- Python `round(x, 1)` over `ℚ`. -/
def round1 (x : ℚ) : ℚ := ((rhe (10 * x) : ℤ) : ℚ) / 10

/-- Record written by `download_video` when a job is created (app.py:241). -/
def startingRec : JDict :=
  [("status", JVal.s "starting"), ("progress", JVal.q 0), ("filename", JVal.null)]

/-- Record written by `progress_hook` on a `downloading` event (app.py:282),
with the computed percentage before rounding as argument. -/
def downloadingRec (percent : ℚ) : JDict :=
  [("status", JVal.s "downloading"), ("progress", JVal.q (round1 percent)),
   ("filename", JVal.null)]

/-- Record written by `progress_hook` on a `finished` event (app.py:288);
`d.get('filename')` yields `None` when the key is absent. -/
def processingRec (fn : Option String) : JDict :=
  [("status", JVal.s "processing"), ("progress", JVal.q 100),
   ("filename", match fn with | some f => JVal.s f | none => JVal.null)]

/-- Record written by `download_worker` on success (app.py:352): display
name and absolute path. -/
def completedFields (name path : String) : JDict :=
  [("status", JVal.s "completed"), ("progress", JVal.q 100),
   ("filename", JVal.s name), ("filepath", JVal.s path)]

/-- Record written by `download_worker` on any exception (app.py:363). -/
def errorRec (msg : String) : JDict :=
  [("status", JVal.s "error"), ("progress", JVal.q 0), ("error", JVal.s msg)]

/-- The dict `d` passed by yt-dlp to a progress hook, restricted to the keys
`progress_hook` reads.  `none` models an absent key. -/
structure HookEvent where
  status : String
  downloaded_bytes : Option ℚ := none
  total_bytes : Option ℚ := none
  total_bytes_estimate : Option ℚ := none
  filename : Option String := none
deriving DecidableEq, Repr

/-- `progress_hook` (app.py:272-294) as a function from the event to the
record it writes; `none` means no write happened (either the status is
neither `downloading` nor `finished`, or the hook body raised - a `KeyError`
on `downloaded_bytes` or a `ZeroDivisionError` - and the internal
`except` swallowed it). -/
def progress_hook (d : HookEvent) : Option JDict :=
  if d.status = "downloading" then
    match d.total_bytes, d.total_bytes_estimate, d.downloaded_bytes with
    | some t, _, some db => if t = 0 then none else some (downloadingRec (db / t * 100))
    | some _, _, none => none
    | none, some t, some db => if t = 0 then none else some (downloadingRec (db / t * 100))
    | none, some _, none => none
    | none, none, _ => some (downloadingRec 0)
  else if d.status = "finished" then
    some (processingRec d.filename)
  else
    none

/-- Decimal rendering of a natural number, structurally recursive on fuel
(Python `str` of a non-negative int). -/
def natDecAux : Nat → Nat → List Char
  | 0, _ => []
  | fuel + 1, n => if n = 0 then [] else natDecAux fuel (n / 10) ++ [Nat.digitChar (n % 10)]

/-- Python `str(n)` for a natural number. -/
def natDecStr (n : Nat) : String :=
  if n = 0 then "0" else String.mk (natDecAux (n + 1) n)

/-- `download_id = f"download_{int(time.time() * 1000)}"` (app.py:240) as a
function of the already-computed millisecond timestamp. -/
def genId (ms : Nat) : String := "download_" ++ natDecStr ms

/-- The character class `[0-9A-Za-z_-]` of the video-id patterns. -/
def isIdChar (c : Char) : Bool := c.isAlphanum || c == '_' || c == '-'

/-- One regex alternative tried at position `p`: the literal `lit` followed
by exactly 11 id characters; returns the captured group on a match. -/
def tryLitAt (s : List Char) (lit : List Char) (p : Nat) : Option (List Char) :=
  let rest := s.drop p
  if lit.isPrefixOf rest then
    let g := (rest.drop lit.length).take 11
    if g.length == 11 && g.all isIdChar then some g else none
  else none

/-- The first pattern of `clean_youtube_url`, `(?:v=|/)([0-9A-Za-z_-]{11}).*`,
tried at position `p`: backtracking tries the `v=` alternative, then `/`
(the trailing `.*` always matches and captures nothing). -/
def tryPat1At (s : List Char) (p : Nat) : Option (List Char) :=
  (tryLitAt s ['v', '='] p).orElse fun _ => tryLitAt s ['/'] p

/-- `re.search`: scan candidate start positions left to right, first
position with a match wins. -/
def searchFirst (f : Nat → Option (List Char)) : Nat → Nat → Option (List Char)
  | 0, _ => none
  | fuel + 1, p => (f p).orElse fun _ => searchFirst f fuel (p + 1)

/-- `clean_youtube_url` (app.py:97-118): try the three patterns in order;
on a match rebuild the canonical watch URL from the captured group, else
return the input unchanged. -/
def clean_youtube_url (url : String) : String :=
  let s := url.data
  match searchFirst (tryPat1At s) (s.length + 1) 0 with
  | some g => "https://www.youtube.com/watch?v=" ++ String.mk g
  | none =>
  match searchFirst (tryLitAt s "embed/".data) (s.length + 1) 0 with
  | some g => "https://www.youtube.com/watch?v=" ++ String.mk g
  | none =>
  match searchFirst (tryLitAt s "watch?v=".data) (s.length + 1) 0 with
  | some g => "https://www.youtube.com/watch?v=" ++ String.mk g
  | none => url

/-- The optional-scheme alternatives `(https?://)?` of the host patterns. -/
def schemeOpts : List String := ["", "http://", "https://"]

/-- `(https?://)?(www\.)?(youtube|youtu|youtube-nocookie)\.(com|be)/`
matched at position `p` (backtracking over the optional groups and
alternations is the disjunction over all combinations). -/
def pat1HostAt (s : List Char) (p : Nat) : Bool :=
  schemeOpts.any fun sc => ["", "www."].any fun w =>
    ["youtube", "youtu", "youtube-nocookie"].any fun h =>
      ["com", "be"].any fun t =>
        (sc ++ w ++ h ++ "." ++ t ++ "/").data.isPrefixOf (s.drop p)

/-- `(https?://)?(m\.)?youtube\.com/` matched at position `p`. -/
def pat2HostAt (s : List Char) (p : Nat) : Bool :=
  schemeOpts.any fun sc => ["", "m."].any fun w =>
    (sc ++ w ++ "youtube.com/").data.isPrefixOf (s.drop p)

/-- `is_valid_youtube_url` (app.py:120-126): `any(re.search(pat, url) for
pat in youtube_patterns)`. -/
def is_valid_youtube_url (url : String) : Bool :=
  let s := url.data
  ((List.range (s.length + 1)).any fun p => pat1HostAt s p) ||
  ((List.range (s.length + 1)).any fun p => pat2HostAt s p)

/-- Claim-side predicate, following the spec wording for C6: `g` occurs as
an 11-character id directly after `v=`, `/embed/` or `watch?v=` somewhere
in `url` (the positions the spec calls recognized). -/
def hasRecognizedId (url : String) (g : String) : Bool :=
  let s := url.data
  (List.range (s.length + 1)).any fun p =>
    tryLitAt s "v=".data p == some g.data ||
    tryLitAt s "/embed/".data p == some g.data ||
    tryLitAt s "watch?v=".data p == some g.data

/-- `os.path.basename`: the part after the last `/`. -/
def basename (p : String) : String := (p.splitOn "/").getLastD p

/-- Python `p.rsplit('.', 1)[0]`: the part before the last `.`, or the
whole string when there is no dot. -/
def stripExt (p : String) : String :=
  let parts := p.splitOn "."
  if parts.length ≤ 1 then p else String.intercalate "." parts.dropLast

/-- Extension fixup after download (app.py:347-350): audio extracted to
mp3/wav changes the extension of the prepared filename. -/
def fixExt (format_type quality filename : String) : String :=
  if format_type = "audio" ∧ quality = "mp3" then stripExt filename ++ ".mp3"
  else if format_type = "audio" ∧ quality = "wav" then stripExt filename ++ ".wav"
  else filename

/-- Outcome of the call into yt-dlp inside `download_worker`: either
`extract_info` returned (after invoking the progress hook on the listed
events, with `prepare_filename` yielding `raw`), or some step of the `try`
block raised with message `msg` (after the hook ran on the listed events). -/
inductive WorkerOutcome where
  | ok (events : List HookEvent) (raw : String)
  | exn (events : List HookEvent) (msg : String)
deriving Repr

/-- One progress-hook invocation acting on the registry: write the produced
record, or leave the registry unchanged when the hook wrote nothing. -/
def applyHookR (reg : Registry) (id : String) (d : HookEvent) : Registry :=
  match progress_hook d with
  | some rec => regSet reg id rec
  | none => reg

/-- `download_worker` (app.py:266-367) as a registry transformer, given the
outcome of the yt-dlp call.  All exceptions are caught by the outer
`except`, which writes the `error` record; the function is total, so no
failure propagates out of the worker. -/
def download_worker (reg : Registry) (id : String) (format_type quality : String) :
    WorkerOutcome → Registry
  | WorkerOutcome.ok evs raw =>
      let reg1 := evs.foldl (fun r d => applyHookR r id d) reg
      let f := fixExt format_type quality raw
      regSet reg1 id (completedFields (basename f) f)
  | WorkerOutcome.exn evs msg =>
      let reg1 := evs.foldl (fun r d => applyHookR r id d) reg
      regSet reg1 id (errorRec msg)

/-- `GET /api/progress/<id>` (app.py:369-373): the stored record, or the
`not_found` sentinel, always with HTTP status 200. -/
def get_progress (reg : Registry) (id : String) : Nat × JDict :=
  (200, (regGet reg id).getD [("status", JVal.s "not_found")])

/-- Response body of `GET /api/download-file/<id>`: a JSON error or a file
attachment (path on disk plus the `download_name` value). -/
inductive FileResp where
  | jsonErr (msg : String)
  | attachment (path : String) (name : JVal)
deriving DecidableEq, Repr

/-- `GET /api/download-file/<id>` (app.py:375-399).  `fileExists` models
`os.path.exists`.  An empty dict or an empty `filepath` string is falsy in
Python; a missing `status` or `filename` key raises a `KeyError`, which the
outer `except` turns into a 500. -/
def download_file (reg : Registry) (fileExists : String → Bool) (id : String) :
    Nat × FileResp :=
  match regGet reg id with
  | none => (404, FileResp.jsonErr "Descarga no completada")
  | some rec =>
    if rec.isEmpty then (404, FileResp.jsonErr "Descarga no completada")
    else
      match List.lookup "status" rec with
      | none => (500, FileResp.jsonErr "KeyError: status")
      | some st =>
        if st ≠ JVal.s "completed" then (404, FileResp.jsonErr "Descarga no completada")
        else
          match List.lookup "filepath" rec with
          | some (JVal.s p) =>
            if p = "" || !fileExists p then (404, FileResp.jsonErr "Archivo no encontrado")
            else
              match List.lookup "filename" rec with
              | some v => (200, FileResp.attachment p v)
              | none => (500, FileResp.jsonErr "KeyError: filename")
          | some JVal.null => (404, FileResp.jsonErr "Archivo no encontrado")
          | some (JVal.q x) =>
            if x = 0 then (404, FileResp.jsonErr "Archivo no encontrado")
            else (500, FileResp.jsonErr "TypeError")
          | none => (404, FileResp.jsonErr "Archivo no encontrado")

/-- A record is one of the five shapes this application ever writes. -/
def AppRecord (rec : JDict) : Prop :=
  rec = startingRec ∨ (∃ q, rec = downloadingRec q) ∨ (∃ fn, rec = processingRec fn) ∨
  (∃ n p, rec = completedFields n p) ∨ (∃ m, rec = errorRec m)

/-- A file in the shared temporary directory: its name, last-modified time,
and whether `unlink` would succeed on it. -/
structure FsFile where
  name : String
  mtime : Int
  deletable : Bool
deriving DecidableEq, Repr

/-- `file.unlink()` wrapped in the per-file `try`: remove the file when it
is present and deletable, otherwise the raised error is logged and the
state is unchanged. -/
def tryUnlink (fs : List FsFile) (n : String) : List FsFile :=
  match fs.find? (fun g => g.name == n) with
  | some g => if g.deletable then fs.filter (fun g2 => g2.name != n) else fs
  | none => fs

/-- Whether a file name matches the glob `yt_download_*`. -/
def globMatch (f : FsFile) : Bool := "yt_download_".data.isPrefixOf f.name.data

/-- `clean_old_files` (app.py:77-95): iterate over the files matching the
glob `yt_download_*`, deleting each one whose age exceeds `maxAge`; a
deletion failure only skips that file. -/
def clean_old_files (now maxAge : Int) (fs : List FsFile) : List FsFile :=
  (fs.filter globMatch).foldl
    (fun s f => if maxAge < now - f.mtime then tryUnlink s f.name else s) fs

/-- The registry writes that can target one job: the creation write of
`download_video`, a progress-hook invocation, and the worker's terminal
success or error write. -/
inductive Ev where
  | create
  | hook (d : HookEvent)
  | complete (name path : String)
  | fail (msg : String)
deriving Repr

/-- Effect of one write event on the job's registry entry. -/
def stepEv (s : Option JDict) : Ev → Option JDict
  | Ev.create => some startingRec
  | Ev.hook d =>
      match progress_hook d with
      | some rec => some rec
      | none => s
  | Ev.complete n p => some (completedFields n p)
  | Ev.fail m => some (errorRec m)

/-- The `status` value of the job's current registry entry. -/
def statusOf (s : Option JDict) : Option JVal := s.bind (List.lookup "status")

/-- The successive `status` values stored in the registry along an event
sequence, starting from (and including) the initial state. -/
def statusTrace (s : Option JDict) : List Ev → List (Option JVal)
  | [] => [statusOf s]
  | e :: evs => statusOf s :: statusTrace (stepEv s e) evs

/-- `r` holds between every two consecutive elements. -/
def chainB (r : α → α → Bool) : List α → Bool
  | [] => true
  | [_] => true
  | a :: b :: l => r a b && chainB r (b :: l)

/-- Position of a status on the lifecycle path. -/
def rankOf (x : String) : Nat :=
  if x = "starting" then 0
  else if x = "downloading" then 1
  else if x = "processing" then 2
  else if x = "completed" then 3
  else if x = "error" then 4
  else 9

/-- The transition relation the spec allows: from a terminal status only to
itself, otherwise forward along the path (with `error` reachable from every
non-terminal status); `none` is the state before the job exists. -/
def allowedB : Option JVal → Option JVal → Bool
  | none, _ => true
  | some (JVal.s x), some (JVal.s y) =>
      if x = "completed" ∨ x = "error" then y == x
      else decide (rankOf x ≤ rankOf y)
  | _, _ => false

/-- A status is one of the three non-terminal lifecycle stages. -/
def nontermB (o : Option JVal) : Bool :=
  o == some (JVal.s "starting") || o == some (JVal.s "downloading") ||
  o == some (JVal.s "processing")

/-- No `downloading` hook event occurs after a `finished` hook event: the
single-stream behaviour of the collaborator that the spec assumes. -/
def noRestartB : List HookEvent → Bool
  | [] => true
  | d :: rest =>
      ((!(d.status == "finished")) || rest.all (fun e => !(e.status == "downloading"))) &&
      noRestartB rest

/-- The worker's terminal write, if any. -/
inductive TermWrite where
  | none_
  | complete (name path : String)
  | fail (msg : String)

/-- The event list contributed by the terminal write. -/
def termEvs : TermWrite → List Ev
  | TermWrite.none_ => []
  | TermWrite.complete n p => [Ev.complete n p]
  | TermWrite.fail m => [Ev.fail m]

/-! ## Basic registry lemmas -/

/-- A dict write is visible to the next read of the same key. -/
theorem regGet_regSet_self (r : Registry) (id : String) (rec : JDict) :
    regGet (regSet r id rec) id = some rec := by
  simp [regGet, regSet, List.lookup]

/-- A successful lookup result is a member of the association list. -/
theorem mem_of_lookup_eq_some {l : List (String × JDict)} {k : String} {v : JDict}
    (h : List.lookup k l = some v) : (k, v) ∈ l := by
  induction l with
  | nil => simp [List.lookup] at h
  | cons a l ih =>
      rw [List.lookup_cons] at h
      by_cases hk : (k == a.1) = true
      · rw [hk] at h
        cases h
        have hk2 : k = a.1 := by simpa using hk
        subst hk2
        exact List.mem_cons_self _ _
      · rw [Bool.not_eq_true] at hk
        rw [hk] at h
        exact List.mem_cons_of_mem _ (ih h)

/-- C2: creating a job then reading it yields status `starting`; an update
that writes the `completed` record with an output path and name reads back
exactly as written; reading an id never created yields the `not_found`
sentinel with HTTP status 200 (a success code, not an error). -/
theorem C2_registry_roundtrip (reg : Registry) (id did name path : String)
    (h : regGet reg did = none) :
    regGet (regSet reg id startingRec) id = some startingRec ∧
    List.lookup "status" startingRec = some (JVal.s "starting") ∧
    regGet (regSet reg id (completedFields name path)) id =
      some (completedFields name path) ∧
    get_progress reg did = (200, [("status", JVal.s "not_found")]) :=
  ⟨regGet_regSet_self reg id startingRec, rfl,
   regGet_regSet_self reg id (completedFields name path), by simp [get_progress, h]⟩

/-- Witness for C2 at a concrete registry, id, name and path. -/
theorem C2_registry_roundtrip_witness :
    regGet ([] : Registry) "missing" = none ∧
    (regGet (regSet [] "download_1700000000000" startingRec) "download_1700000000000" =
        some startingRec ∧
      List.lookup "status" startingRec = some (JVal.s "starting") ∧
      regGet (regSet [] "download_1700000000000"
            (completedFields "clip.mp4" "/tmp/yt_download_1_clip.mp4"))
          "download_1700000000000" =
        some (completedFields "clip.mp4" "/tmp/yt_download_1_clip.mp4") ∧
      get_progress [] "missing" = (200, [("status", JVal.s "not_found")])) :=
  ⟨by decide,
   C2_registry_roundtrip [] "download_1700000000000" "missing" "clip.mp4"
     "/tmp/yt_download_1_clip.mp4" (by decide)⟩

/-- C3 (code bug): the id generator truncates the clock to milliseconds,
so any two `POST /api/download` requests handled within the same
millisecond receive the same id: 1000 creations all falling in millisecond
1700000000000 produce the id `download_1700000000000` one thousand times,
not 1000 pairwise distinct ids. -/
theorem C3_same_millisecond_collision :
    genId 1700000000000 = "download_1700000000000" ∧
    ¬ ((List.replicate 1000 (1700000000000 : Nat)).map genId).Nodup := by
  refine ⟨by decide, ?_⟩
  rw [List.map_replicate, List.nodup_replicate]
  omega

/-- C7: whatever exception message the yt-dlp call raises, and whatever
hook events preceded it, the worker ends with an `error` record for the
job carrying that message; `download_worker` is a total function into
`Registry`, so no failure propagates out of the worker. -/
theorem C7_worker_error_write (reg : Registry) (id format_type quality : String)
    (evs : List HookEvent) (msg : String) :
    ∃ rec,
      regGet (download_worker reg id format_type quality (WorkerOutcome.exn evs msg)) id =
        some rec ∧
      List.lookup "status" rec = some (JVal.s "error") ∧
      List.lookup "error" rec = some (JVal.s msg) :=
  ⟨errorRec msg, by simp [download_worker]; exact regGet_regSet_self _ _ _, rfl, rfl⟩

/-- C10: the error write replaces the whole record: reading the job after
the worker's error write yields exactly the error record, which has no
`filename` or `filepath` key and has progress 0, regardless of what any
earlier write for the same job had stored. -/
theorem C10_error_write_replaces (reg : Registry) (id format_type quality : String)
    (evs : List HookEvent) (msg : String) :
    regGet (download_worker reg id format_type quality (WorkerOutcome.exn evs msg)) id =
      some (errorRec msg) ∧
    List.lookup "filename" (errorRec msg) = none ∧
    List.lookup "filepath" (errorRec msg) = none ∧
    List.lookup "progress" (errorRec msg) = some (JVal.q 0) ∧
    List.lookup "status" (errorRec msg) = some (JVal.s "error") :=
  ⟨by simp [download_worker]; exact regGet_regSet_self _ _ _, rfl, rfl, rfl, rfl⟩

/-- C1 counterexample: a `finished` hook event followed by a further
`downloading` hook event (as yt-dlp emits when it downloads a second
stream) drives the stored status from `processing` back to `downloading`;
the stored status sequence is not monotone along the lifecycle path. -/
theorem C1_processing_back_to_downloading :
    statusTrace none
        [Ev.create, Ev.hook ⟨"finished", none, none, none, some "clip.webm"⟩,
          Ev.hook ⟨"downloading", none, none, none, none⟩] =
      [none, some (JVal.s "starting"), some (JVal.s "processing"),
        some (JVal.s "downloading")] ∧
    chainB allowedB
        (statusTrace none
          [Ev.create, Ev.hook ⟨"finished", none, none, none, some "clip.webm"⟩,
            Ev.hook ⟨"downloading", none, none, none, none⟩]) = false := by
  decide

/-- C4 counterexample: a `downloading` event reporting more downloaded
bytes (200) than its total (100) makes the hook write progress 200, which
is outside [0, 100]. -/
theorem C4_progress_exceeds_100 :
    progress_hook ⟨"downloading", some 200, some 100, none, none⟩ =
      some (downloadingRec (200 / 100 * 100)) ∧
    List.lookup "progress" (downloadingRec (200 / 100 * 100)) = some (JVal.q 200) ∧
    ¬ ((200 : ℚ) ≤ 100) := by
  decide

/-! ## URL normalizer: search lemmas and claims C5, C6 -/

/-- If no position in the scanned range matches, the search fails. -/
theorem searchFirst_none (f : Nat → Option (List Char)) (fuel : Nat) :
    ∀ p0 : Nat, (∀ p, p0 ≤ p → p < p0 + fuel → f p = none) →
      searchFirst f fuel p0 = none := by
  induction fuel with
  | zero => intro p0 _; rfl
  | succ fuel ih =>
      intro p0 h
      rw [searchFirst, h p0 le_rfl (by omega)]
      simp only [Option.orElse]
      exact ih (p0 + 1) (fun p hp1 hp2 => h p (by omega) (by omega))

/-- If some position in the scanned range matches and every matching
position yields the same group `v`, the search returns `some v`. -/
theorem searchFirst_unique (f : Nat → Option (List Char)) (v : List Char) (fuel : Nat) :
    ∀ p0 : Nat, (∃ p, p0 ≤ p ∧ p < p0 + fuel ∧ f p ≠ none) →
      (∀ p, p0 ≤ p → p < p0 + fuel → f p ≠ none → f p = some v) →
      searchFirst f fuel p0 = some v := by
  induction fuel with
  | zero =>
      intro p0 hex _
      obtain ⟨p, h1, h2, _⟩ := hex
      omega
  | succ fuel ih =>
      intro p0 hex hall
      cases hf : f p0 with
      | some w =>
          have hw := hall p0 le_rfl (by omega) (by rw [hf]; exact fun hc => Option.noConfusion hc)
          rw [searchFirst, hf]
          simp only [Option.orElse]
          rw [hf] at hw
          exact hw
      | none =>
          rw [searchFirst, hf]
          simp only [Option.orElse]
          apply ih (p0 + 1)
          · obtain ⟨p, h1, h2, h3⟩ := hex
            refine ⟨p, ?_, by omega, h3⟩
            rcases Nat.eq_or_lt_of_le h1 with rfl | hlt
            · exact absurd hf h3
            · omega
          · exact fun p hp1 hp2 h3 => hall p (by omega) (by omega) h3

/-- C5: a string in which no position matches any of the three id-capture
patterns of `clean_youtube_url` nor either host pattern of
`is_valid_youtube_url` is rejected by validation and returned unchanged by
normalization. -/
theorem C5_unrecognized_passthrough (url : String)
    (h1 : ∀ p < url.data.length + 1, tryPat1At url.data p = none)
    (h2 : ∀ p < url.data.length + 1, tryLitAt url.data "embed/".data p = none)
    (h3 : ∀ p < url.data.length + 1, tryLitAt url.data "watch?v=".data p = none)
    (h4 : ∀ p < url.data.length + 1, pat1HostAt url.data p = false)
    (h5 : ∀ p < url.data.length + 1, pat2HostAt url.data p = false) :
    is_valid_youtube_url url = false ∧ clean_youtube_url url = url := by
  constructor
  · simp only [is_valid_youtube_url, Bool.or_eq_false_iff]
    constructor <;>
      · rw [List.any_eq_false]
        intro p hp
        simp only [List.mem_range] at hp
        first
          | exact (h4 p hp) ▸ (by simp)
          | exact (h5 p hp) ▸ (by simp)
  · simp only [clean_youtube_url]
    rw [searchFirst_none _ _ _ (fun p hp1 hp2 => h1 p (by omega)),
        searchFirst_none _ _ _ (fun p hp1 hp2 => h2 p (by omega)),
        searchFirst_none _ _ _ (fun p hp1 hp2 => h3 p (by omega))]

/-- Witness for C5 at the concrete input `hello`. -/
theorem C5_unrecognized_passthrough_witness :
    ((∀ p < "hello".data.length + 1, tryPat1At "hello".data p = none) ∧
      (∀ p < "hello".data.length + 1, tryLitAt "hello".data "embed/".data p = none) ∧
      (∀ p < "hello".data.length + 1, tryLitAt "hello".data "watch?v=".data p = none) ∧
      (∀ p < "hello".data.length + 1, pat1HostAt "hello".data p = false) ∧
      (∀ p < "hello".data.length + 1, pat2HostAt "hello".data p = false)) ∧
    (is_valid_youtube_url "hello" = false ∧ clean_youtube_url "hello" = "hello") :=
  ⟨⟨by decide, by decide, by decide, by decide, by decide⟩,
   C5_unrecognized_passthrough "hello" (by decide) (by decide) (by decide) (by decide)
     (by decide)⟩

/-- C6 counterexample: the first pattern captures after any `/`, so in a
valid URL whose path has an 11-character channel segment before
`watch?v=<id>`, the leftmost match is the channel segment, and
normalization rebuilds the watch URL around `SomeChannel`, not around the
id `abcdefghijk` that sits in a recognized position. -/
theorem C6_channel_segment_preempts_id :
    is_valid_youtube_url "https://www.youtube.com/c/SomeChannel/watch?v=abcdefghijk" = true ∧
    hasRecognizedId "https://www.youtube.com/c/SomeChannel/watch?v=abcdefghijk"
        "abcdefghijk" = true ∧
    clean_youtube_url "https://www.youtube.com/c/SomeChannel/watch?v=abcdefghijk" =
      "https://www.youtube.com/watch?v=SomeChannel" ∧
    "https://www.youtube.com/watch?v=SomeChannel" ≠
      "https://www.youtube.com/watch?v=abcdefghijk" := by
  decide

/-- C6 amended: when every position at which the first pattern matches
captures the same group `g` (in particular when the URL contains exactly
one 11-character run preceded by `v=` or `/`), normalization returns
exactly the canonical watch URL built from `g`. -/
theorem C6_unique_id_normalizes (url g : String)
    (_hv : is_valid_youtube_url url = true)
    (hex : ∃ p < url.data.length + 1, tryPat1At url.data p ≠ none)
    (huniq : ∀ p < url.data.length + 1,
      tryPat1At url.data p ≠ none → tryPat1At url.data p = some g.data) :
    clean_youtube_url url = "https://www.youtube.com/watch?v=" ++ g := by
  have hs : searchFirst (tryPat1At url.data) (url.data.length + 1) 0 = some g.data := by
    apply searchFirst_unique
    · obtain ⟨p, hp, h⟩ := hex
      exact ⟨p, Nat.zero_le _, by omega, h⟩
    · intro p _ hp2 h3
      exact huniq p (by omega) h3
  simp only [clean_youtube_url, hs]

/-- Witness for the amended C6 at a concrete canonical URL. -/
theorem C6_unique_id_normalizes_witness :
    (is_valid_youtube_url "https://www.youtube.com/watch?v=abcdefghijk" = true ∧
      (∃ p < "https://www.youtube.com/watch?v=abcdefghijk".data.length + 1,
        tryPat1At "https://www.youtube.com/watch?v=abcdefghijk".data p ≠ none) ∧
      (∀ p < "https://www.youtube.com/watch?v=abcdefghijk".data.length + 1,
        tryPat1At "https://www.youtube.com/watch?v=abcdefghijk".data p ≠ none →
          tryPat1At "https://www.youtube.com/watch?v=abcdefghijk".data p =
            some "abcdefghijk".data)) ∧
    clean_youtube_url "https://www.youtube.com/watch?v=abcdefghijk" =
      "https://www.youtube.com/watch?v=" ++ "abcdefghijk" :=
  ⟨⟨by decide, by decide, by decide⟩,
   C6_unique_id_normalizes "https://www.youtube.com/watch?v=abcdefghijk" "abcdefghijk"
     (by decide) (by decide) (by decide)⟩

/-! ## File retrieval: claim C9 -/

/-- C9: the file endpoint serves an attachment exactly for a job whose
stored record is a completed record whose recorded path exists on disk;
in every other case (unknown id, any non-completed status, or a missing
file) it answers 404, and what it serves is always the recorded path of a
completed record, never a partial file. -/
theorem C9_download_file_gate (reg : Registry) (ex : String → Bool) (id : String)
    (hwf : ∀ e ∈ reg, AppRecord e.2) (hex : ex "" = false) :
    (∀ n p, regGet reg id = some (completedFields n p) → ex p = true →
      download_file reg ex id = (200, FileResp.attachment p (JVal.s n))) ∧
    ((¬ ∃ n p, regGet reg id = some (completedFields n p) ∧ ex p = true) →
      (download_file reg ex id).1 = 404) := by
  constructor
  · intro n p hget hep
    have hpne : p ≠ "" := by
      intro hp
      rw [hp, hex] at hep
      exact Bool.noConfusion hep
    simp [download_file, hget, completedFields, List.lookup, hep, hpne]
  · intro hno
    cases hget : regGet reg id with
    | none => simp [download_file, hget]
    | some rec =>
      have hrec : AppRecord rec := hwf (id, rec) (mem_of_lookup_eq_some hget)
      rcases hrec with h | ⟨q, h⟩ | ⟨fn, h⟩ | ⟨n, p, h⟩ | ⟨m, h⟩ <;> subst h
      · simp [download_file, hget, startingRec, List.lookup]
      · simp [download_file, hget, downloadingRec, List.lookup]
      · simp [download_file, hget, processingRec, List.lookup]
      · have hp : ex p = false := by
          cases hexp : ex p with
          | false => rfl
          | true => exact absurd ⟨n, p, hget, hexp⟩ hno
        by_cases hpe : p = ""
        · simp [download_file, hget, completedFields, List.lookup, hpe]
        · simp [download_file, hget, completedFields, List.lookup, hpe, hp]
      · simp [download_file, hget, errorRec, List.lookup]

/-- Witness for C9: a registry with a downloading job and a completed job,
and a disk on which exactly the completed job's file exists. -/
theorem C9_download_file_gate_witness :
    ((∀ e ∈ regSet (regSet [] "a" (downloadingRec 50)) "b"
          (completedFields "f.mp4" "/tmp/yt_download_b_f.mp4"), AppRecord e.2) ∧
      (fun s => s == "/tmp/yt_download_b_f.mp4") "" = false) ∧
    download_file (regSet (regSet [] "a" (downloadingRec 50)) "b"
        (completedFields "f.mp4" "/tmp/yt_download_b_f.mp4"))
        (fun s => s == "/tmp/yt_download_b_f.mp4") "b" =
      (200, FileResp.attachment "/tmp/yt_download_b_f.mp4" (JVal.s "f.mp4")) := by
  have hwf : ∀ e ∈ regSet (regSet [] "a" (downloadingRec 50)) "b"
      (completedFields "f.mp4" "/tmp/yt_download_b_f.mp4"), AppRecord e.2 := by
    intro e he
    simp only [regSet, List.mem_cons, List.not_mem_nil, or_false] at he
    rcases he with rfl | rfl
    · exact Or.inr (Or.inr (Or.inr (Or.inl ⟨"f.mp4", "/tmp/yt_download_b_f.mp4", rfl⟩)))
    · exact Or.inr (Or.inl ⟨50, rfl⟩)
  exact ⟨⟨hwf, rfl⟩,
    (C9_download_file_gate _ _ "b" hwf rfl).1 "f.mp4" "/tmp/yt_download_b_f.mp4"
      (by decide) rfl⟩

/-! ## Retention reaper: claim C8 -/

/-- With pairwise-distinct file names, `find?` by name returns the file
itself. -/
theorem find_name_eq (s : List FsFile) (f : FsFile) (hf : f ∈ s)
    (hs : (s.map FsFile.name).Nodup) :
    s.find? (fun g => g.name == f.name) = some f := by
  induction s with
  | nil => cases hf
  | cons a s ih =>
      simp only [List.map_cons, List.nodup_cons] at hs
      rcases List.mem_cons.mp hf with rfl | hmem
      · rw [List.find?_cons_of_pos _ (by simp)]
      · have hne : (a.name == f.name) = false := by
          simp only [beq_eq_false_iff_ne, ne_eq]
          intro he
          exact hs.1 (he ▸ List.mem_map_of_mem FsFile.name hmem)
        simp only [List.find?_cons, hne]
        exact ih hmem hs.2

/-- The sweep loop of `clean_old_files`, run over an iteration list `l` of
files all present in the state `s` (both with pairwise-distinct names),
removes from `s` exactly the stale deletable members of `l`: a failed
deletion (a non-deletable file) only skips that file. -/
theorem sweep_foldl_eq (now maxAge : Int) (l : List FsFile) :
    ∀ s : List FsFile,
      (s.map FsFile.name).Nodup →
      (l.map FsFile.name).Nodup →
      (∀ f ∈ l, f ∈ s) →
      l.foldl (fun t f => if maxAge < now - f.mtime then tryUnlink t f.name else t) s =
        s.filter
          (fun g => !(decide (g ∈ l) && decide (maxAge < now - g.mtime) && g.deletable)) := by
  induction l with
  | nil =>
      intro s _ _ _
      simp
  | cons f l ih =>
      intro s hs hl hsub
      have hfns : f ∈ s := hsub f (List.mem_cons_self f l)
      have hfnl : f.name ∉ l.map FsFile.name := by
        simp only [List.map_cons, List.nodup_cons] at hl
        exact hl.1
      have hfl : f ∉ l := fun h => hfnl (List.mem_map_of_mem FsFile.name h)
      have hlnd : (l.map FsFile.name).Nodup := by
        simp only [List.map_cons, List.nodup_cons] at hl
        exact hl.2
      have hinj := List.inj_on_of_nodup_map hs
      rw [List.foldl_cons]
      by_cases hst : maxAge < now - f.mtime
      · rw [if_pos hst]
        have hfind : s.find? (fun g => g.name == f.name) = some f := find_name_eq s f hfns hs
        by_cases hdel : f.deletable = true
        · have hun : tryUnlink s f.name = s.filter (fun g2 => g2.name != f.name) := by
            simp [tryUnlink, hfind, hdel]
          rw [hun]
          rw [ih (s.filter fun g2 => g2.name != f.name)
              (List.Nodup.sublist (List.Sublist.map _ (List.filter_sublist s)) hs) hlnd ?_]
          · rw [List.filter_filter]
            apply List.filter_congr
            intro g hg
            by_cases hgf : g.name = f.name
            · have hge : g = f := hinj hg hfns hgf
              subst hge
              simp [hdel, hst]
            · have hgne : g ≠ f := fun he => hgf (he ▸ rfl)
              simp [List.mem_cons, hgf, hgne]
          · intro g hg
            rw [List.mem_filter]
            refine ⟨hsub g (List.mem_cons_of_mem _ hg), ?_⟩
            have : g.name ≠ f.name := by
              intro he
              exact hfnl (he ▸ List.mem_map_of_mem FsFile.name hg)
            simpa using this
        · have hdel2 : f.deletable = false := by simpa using hdel
          have hun : tryUnlink s f.name = s := by simp [tryUnlink, hfind, hdel2]
          rw [hun, ih s hs hlnd (fun g hg => hsub g (List.mem_cons_of_mem _ hg))]
          apply List.filter_congr
          intro g hg
          by_cases hgf : g = f
          · subst hgf
            simp [hdel2, hfl]
          · simp [List.mem_cons, hgf]
      · rw [if_neg hst]
        rw [ih s hs hlnd (fun g hg => hsub g (List.mem_cons_of_mem _ hg))]
        apply List.filter_congr
        intro g hg
        by_cases hgf : g = f
        · subst hgf
          simp [hst, hfl]
        · simp [List.mem_cons, hgf]

/-- C8: on a filesystem with pairwise-distinct names, one sweep of
`clean_old_files` keeps exactly the files that are not (matching the
`yt_download_*` naming convention, older than the threshold, and
deletable): a deletion failure on one file never prevents the deletion of
another qualifying file. -/
theorem C8_reaper (now maxAge : Int) (fs : List FsFile)
    (hnd : (fs.map FsFile.name).Nodup) :
    clean_old_files now maxAge fs =
      fs.filter
        (fun g => !(globMatch g &&
          decide (maxAge < now - g.mtime) && g.deletable)) := by
  unfold clean_old_files
  rw [sweep_foldl_eq now maxAge _ fs hnd
      (List.Nodup.sublist (List.Sublist.map _ (List.filter_sublist fs)) hnd)
      (fun g hg => (List.mem_filter.mp hg).1)]
  apply List.filter_congr
  intro g hg
  have hmem : (g ∈ fs.filter globMatch) ↔ globMatch g = true := by
    rw [List.mem_filter]
    exact ⟨fun h => h.2, fun h => ⟨hg, h⟩⟩
  simp [hmem]

/-- Witness for C8: under a 3600s threshold at time 5000, among a stale
non-deletable file, a stale deletable file (age 5000s), a fresh file (age
10s) and a non-matching file, exactly the stale deletable match is
removed. -/
theorem C8_reaper_witness :
    (([⟨"yt_download_a", 0, false⟩, ⟨"yt_download_b", 0, true⟩,
        ⟨"yt_download_c", 4990, true⟩, ⟨"other", 0, true⟩] : List FsFile).map
        FsFile.name).Nodup ∧
    clean_old_files 5000 3600
        [⟨"yt_download_a", 0, false⟩, ⟨"yt_download_b", 0, true⟩,
          ⟨"yt_download_c", 4990, true⟩, ⟨"other", 0, true⟩] =
      [⟨"yt_download_a", 0, false⟩, ⟨"yt_download_c", 4990, true⟩,
        ⟨"other", 0, true⟩] :=
  ⟨by decide,
   (C8_reaper 5000 3600
       [⟨"yt_download_a", 0, false⟩, ⟨"yt_download_b", 0, true⟩,
         ⟨"yt_download_c", 4990, true⟩, ⟨"other", 0, true⟩] (by decide)).trans
     (by decide)⟩

/-! ## Progress percentage bounds: claim C4 (amended) -/

/-- `rhe` of a rational in `[0, n]` stays in `[0, n]`. -/
theorem rhe_bounds {x : ℚ} {n : ℤ} (h0 : 0 ≤ x) (h1 : x ≤ (n : ℚ)) :
    0 ≤ rhe x ∧ rhe x ≤ n := by
  have hf0 : 0 ≤ ⌊x⌋ := Int.floor_nonneg.mpr h0
  have hfn : ⌊x⌋ ≤ n := by
    have h := Int.floor_le_floor h1
    simpa using h
  unfold rhe
  by_cases hlt : x - (⌊x⌋ : ℚ) < 1 / 2
  · rw [if_pos hlt]
    exact ⟨hf0, hfn⟩
  · have hfx : (⌊x⌋ : ℚ) < x := by
      have hge : (1 : ℚ) / 2 ≤ x - (⌊x⌋ : ℚ) := not_lt.mp hlt
      linarith
    have hltn : ⌊x⌋ < n := by
      have hc : ((⌊x⌋ : ℤ) : ℚ) < (n : ℚ) := lt_of_lt_of_le hfx h1
      exact_mod_cast hc
    rw [if_neg hlt]
    by_cases h2 : 1 / 2 < x - (⌊x⌋ : ℚ)
    · rw [if_pos h2]
      omega
    · rw [if_neg h2]
      by_cases h3 : ⌊x⌋ % 2 = 0
      · rw [if_pos h3]
        exact ⟨hf0, hfn⟩
      · rw [if_neg h3]
        omega

/-- `round1` of a percentage in `[0, 100]` stays in `[0, 100]`. -/
theorem round1_bounds {x : ℚ} (h0 : 0 ≤ x) (h1 : x ≤ 100) :
    0 ≤ round1 x ∧ round1 x ≤ 100 := by
  have h10 : (0 : ℚ) ≤ 10 * x := by linarith
  have h1000 : 10 * x ≤ ((1000 : ℤ) : ℚ) := by push_cast; linarith
  obtain ⟨ha, hb⟩ := rhe_bounds h10 h1000
  have ha2 : (0 : ℚ) ≤ ((rhe (10 * x) : ℤ) : ℚ) := by exact_mod_cast ha
  have hb2 : ((rhe (10 * x) : ℤ) : ℚ) ≤ 1000 := by exact_mod_cast hb
  unfold round1
  constructor
  · exact div_nonneg ha2 (by norm_num)
  · rw [div_le_iff₀ (by norm_num : (0 : ℚ) < 10)]
    linarith

/-- `db / t * 100` is a percentage in `[0, 100]` when `0 ≤ db ≤ t`. -/
theorem percent_bounds {db t : ℚ} (h0 : 0 ≤ db) (h1 : db ≤ t) (ht : t ≠ 0) :
    0 ≤ db / t * 100 ∧ db / t * 100 ≤ 100 := by
  have htpos : 0 < t := lt_of_le_of_ne (le_trans h0 h1) (Ne.symm ht)
  constructor
  · exact mul_nonneg (div_nonneg h0 htpos.le) (by norm_num)
  · have hdiv : db / t ≤ 1 := (div_le_one htpos).mpr h1
    have h := mul_le_mul_of_nonneg_right hdiv (by norm_num : (0 : ℚ) ≤ 100)
    simpa using h

/-- C4 amended: whenever the bytes a `downloading` event reports satisfy
`0 ≤ downloaded_bytes ≤ total` for the total the hook divides by (known or
estimated), every progress value the hook writes lies in `[0, 100]`; the
`finished` write is the constant 100 and the no-total fallback is the
constant 0.  (Unconstrained byte counts can escape the range, see the
counterexample.) -/
theorem C4_bounded_bytes_progress_in_range (d : HookEvent) (rec : JDict) (p : ℚ)
    (hw : progress_hook d = some rec)
    (hp : List.lookup "progress" rec = some (JVal.q p))
    (hb : ∀ v t, d.downloaded_bytes = some v →
      (d.total_bytes = some t ∨ (d.total_bytes = none ∧ d.total_bytes_estimate = some t)) →
      0 ≤ v ∧ v ≤ t) :
    0 ≤ p ∧ p ≤ 100 := by
  have hq0 : round1 0 = 0 := by decide
  have h100 : (0 : ℚ) ≤ 100 ∧ (100 : ℚ) ≤ 100 := by norm_num
  unfold progress_hook at hw
  by_cases hd : d.status = "downloading"
  · rw [if_pos hd] at hw
    rcases htb : d.total_bytes with _ | t
    · rcases hte : d.total_bytes_estimate with _ | t
      · simp only [htb, hte] at hw
        injection hw with hrec
        subst hrec
        rw [show List.lookup "progress" (downloadingRec 0) = some (JVal.q (round1 0)) from rfl]
          at hp
        injection hp with hp2
        injection hp2 with hp3
        subst hp3
        rw [hq0]
        norm_num
      · rcases hdb : d.downloaded_bytes with _ | db
        · simp only [htb, hte, hdb] at hw
          exact Option.noConfusion hw
        · simp only [htb, hte, hdb] at hw
          by_cases ht0 : t = 0
          · rw [if_pos ht0] at hw
            exact Option.noConfusion hw
          · rw [if_neg ht0] at hw
            injection hw with hrec
            subst hrec
            rw [show List.lookup "progress" (downloadingRec (db / t * 100)) =
                some (JVal.q (round1 (db / t * 100))) from rfl] at hp
            injection hp with hp2
            injection hp2 with hp3
            subst hp3
            obtain ⟨hv0, hvt⟩ := hb db t hdb (Or.inr ⟨htb, hte⟩)
            obtain ⟨hc0, hc1⟩ := percent_bounds hv0 hvt ht0
            exact round1_bounds hc0 hc1
    · rcases hdb : d.downloaded_bytes with _ | db
      · simp only [htb, hdb] at hw
        exact Option.noConfusion hw
      · simp only [htb, hdb] at hw
        by_cases ht0 : t = 0
        · rw [if_pos ht0] at hw
          exact Option.noConfusion hw
        · rw [if_neg ht0] at hw
          injection hw with hrec
          subst hrec
          rw [show List.lookup "progress" (downloadingRec (db / t * 100)) =
              some (JVal.q (round1 (db / t * 100))) from rfl] at hp
          injection hp with hp2
          injection hp2 with hp3
          subst hp3
          obtain ⟨hv0, hvt⟩ := hb db t hdb (Or.inl htb)
          obtain ⟨hc0, hc1⟩ := percent_bounds hv0 hvt ht0
          exact round1_bounds hc0 hc1
  · rw [if_neg hd] at hw
    by_cases hf : d.status = "finished"
    · rw [if_pos hf] at hw
      injection hw with hrec
      subst hrec
      rw [show List.lookup "progress" (processingRec d.filename) =
          some (JVal.q 100) from rfl] at hp
      injection hp with hp2
      injection hp2 with hp3
      subst hp3
      norm_num
    · rw [if_neg hf] at hw
      exact Option.noConfusion hw

/-- Witness for the amended C4: a downloading event reporting 50 of 200
bytes yields a progress value inside `[0, 100]`. -/
theorem C4_bounded_bytes_progress_in_range_witness :
    (progress_hook ⟨"downloading", some 50, some 200, none, none⟩ =
        some (downloadingRec (50 / 200 * 100)) ∧
      List.lookup "progress" (downloadingRec (50 / 200 * 100)) =
        some (JVal.q (round1 (50 / 200 * 100)))) ∧
    (0 ≤ round1 (50 / 200 * 100) ∧ round1 (50 / 200 * 100) ≤ 100) :=
  ⟨⟨by decide, rfl⟩,
   C4_bounded_bytes_progress_in_range ⟨"downloading", some 50, some 200, none, none⟩
     (downloadingRec (50 / 200 * 100)) (round1 (50 / 200 * 100)) (by decide) rfl
     (by
       intro v t hv ht
       injection hv with hv2
       subst hv2
       rcases ht with ht | ⟨ht, _⟩
       · injection ht with ht2
         subst ht2
         exact ⟨by decide, by decide⟩
       · exact Option.noConfusion ht)⟩

/-! ## Lifecycle monotonicity: claim C1 (amended) -/

/-- `statusOf` on each record shape. -/
theorem statusOf_starting : statusOf (some startingRec) = some (JVal.s "starting") := rfl

theorem statusOf_downloading (q : ℚ) :
    statusOf (some (downloadingRec q)) = some (JVal.s "downloading") := rfl

theorem statusOf_processing (fn : Option String) :
    statusOf (some (processingRec fn)) = some (JVal.s "processing") := rfl

theorem statusOf_completed (n p : String) :
    statusOf (some (completedFields n p)) = some (JVal.s "completed") := rfl

theorem statusOf_error (m : String) :
    statusOf (some (errorRec m)) = some (JVal.s "error") := rfl

/-- Unfolding `chainB` across the head of a status trace. -/
theorem chainB_cons_trace (r : Option JVal → Option JVal → Bool) (x : Option JVal)
    (s : Option JDict) (evs : List Ev) :
    chainB r (x :: statusTrace s evs) =
      (r x (statusOf s) && chainB r (statusTrace s evs)) := by
  cases evs <;> simp [statusTrace, chainB]

/-- A non-terminal status is one of the three lifecycle stages. -/
theorem nonterm_cases {o : Option JVal} (h : nontermB o = true) :
    o = some (JVal.s "starting") ∨ o = some (JVal.s "downloading") ∨
      o = some (JVal.s "processing") := by
  simp only [nontermB, Bool.or_eq_true, beq_iff_eq] at h
  tauto

/-- Every non-terminal status may stay where it is. -/
theorem allowedB_refl_nonterm {o : Option JVal} (h : nontermB o = true) :
    allowedB o o = true := by
  rcases nonterm_cases h with rfl | rfl | rfl <;> decide

/-- Every non-terminal status may advance to `processing`, `completed` or
`error`. -/
theorem allowedB_forward {o y : Option JVal} (h : nontermB o = true)
    (hy : y = some (JVal.s "processing") ∨ y = some (JVal.s "completed") ∨
      y = some (JVal.s "error")) :
    allowedB o y = true := by
  rcases nonterm_cases h with rfl | rfl | rfl <;> rcases hy with rfl | rfl | rfl <;> decide

/-- `starting` and `downloading` may move to `downloading`. -/
theorem allowedB_to_downloading {o : Option JVal}
    (h : o = some (JVal.s "starting") ∨ o = some (JVal.s "downloading")) :
    allowedB o (some (JVal.s "downloading")) = true := by
  rcases h with rfl | rfl <;> decide

/-- A write of the hook is a `downloading` record (only for a `downloading`
event) or the `processing` record (only for a `finished` event). -/
theorem progress_hook_cases (e : HookEvent) (rec : JDict)
    (h : progress_hook e = some rec) :
    (e.status = "downloading" ∧ ∃ q, rec = downloadingRec q) ∨
    (e.status = "finished" ∧ rec = processingRec e.filename) := by
  unfold progress_hook at h
  by_cases hd : e.status = "downloading"
  · rw [if_pos hd] at h
    refine Or.inl ⟨hd, ?_⟩
    rcases htb : e.total_bytes with _ | t <;> rcases hte : e.total_bytes_estimate with _ | t2 <;>
      rcases hdb : e.downloaded_bytes with _ | db <;> simp only [htb, hte, hdb] at h
    all_goals first
      | exact Option.noConfusion h
      | exact ⟨_, (Option.some.inj h).symm⟩
      | (split at h
         · exact Option.noConfusion h
         · exact ⟨_, (Option.some.inj h).symm⟩)
  · rw [if_neg hd] at h
    by_cases hf : e.status = "finished"
    · rw [if_pos hf] at h
      exact Or.inr ⟨hf, (Option.some.inj h).symm⟩
    · rw [if_neg hf] at h
      exact Option.noConfusion h

/-- Running hook events without a `downloading`-after-`finished` restart,
then an optional terminal write, from any non-terminal state keeps the
stored status sequence inside the allowed transition relation. -/
theorem hookRun_chain (hooks : List HookEvent) :
    ∀ (s : Option JDict) (t : TermWrite),
      nontermB (statusOf s) = true →
      noRestartB hooks = true →
      (statusOf s = some (JVal.s "processing") →
        hooks.all (fun e => !(e.status == "downloading")) = true) →
      chainB allowedB (statusTrace s (hooks.map Ev.hook ++ termEvs t)) = true := by
  induction hooks with
  | nil =>
      intro s t hnt _ _
      cases t with
      | none_ => simp [termEvs, statusTrace, chainB]
      | complete n p =>
          have ht : statusTrace s (List.map Ev.hook [] ++ termEvs (TermWrite.complete n p)) =
              [statusOf s, some (JVal.s "completed")] := by
            simp [termEvs, statusTrace, stepEv, statusOf_completed]
          rw [ht]
          simp [chainB, allowedB_forward hnt (Or.inr (Or.inl rfl))]
      | fail m =>
          have ht : statusTrace s (List.map Ev.hook [] ++ termEvs (TermWrite.fail m)) =
              [statusOf s, some (JVal.s "error")] := by
            simp [termEvs, statusTrace, stepEv, statusOf_error]
          rw [ht]
          simp [chainB, allowedB_forward hnt (Or.inr (Or.inr rfl))]
  | cons e hooks ih =>
      intro s t hnt hnr hproc
      rw [noRestartB, Bool.and_eq_true] at hnr
      obtain ⟨hnr1, hnr2⟩ := hnr
      rw [List.map_cons, List.cons_append]
      rw [show statusTrace s (Ev.hook e :: (hooks.map Ev.hook ++ termEvs t)) =
          statusOf s :: statusTrace (stepEv s (Ev.hook e)) (hooks.map Ev.hook ++ termEvs t)
          from rfl]
      rw [chainB_cons_trace]
      rcases hph : progress_hook e with _ | rec
      · have hs2 : stepEv s (Ev.hook e) = s := by simp [stepEv, hph]
        rw [hs2]
        rw [Bool.and_eq_true]
        refine ⟨allowedB_refl_nonterm hnt, ?_⟩
        refine ih s t hnt hnr2 (fun hp => ?_)
        have hall := hproc hp
        rw [List.all_cons, Bool.and_eq_true] at hall
        exact hall.2
      · have hs2 : stepEv s (Ev.hook e) = some rec := by simp [stepEv, hph]
        rw [hs2]
        rcases progress_hook_cases e rec hph with ⟨hds, q, rfl⟩ | ⟨hfs, rfl⟩
        · rw [Bool.and_eq_true]
          refine ⟨?_, ?_⟩
          · rw [statusOf_downloading]
            apply allowedB_to_downloading
            rcases nonterm_cases hnt with h | h | h
            · exact Or.inl h
            · exact Or.inr h
            · exfalso
              have hall := hproc h
              rw [List.all_cons, Bool.and_eq_true] at hall
              have he := hall.1
              rw [hds] at he
              simp at he
          · refine ih (some (downloadingRec q)) t rfl hnr2 (fun hp => ?_)
            rw [statusOf_downloading] at hp
            exact absurd hp (by decide)
        · rw [Bool.and_eq_true]
          refine ⟨?_, ?_⟩
          · rw [statusOf_processing]
            exact allowedB_forward hnt (Or.inl rfl)
          · refine ih (some (processingRec e.filename)) t rfl hnr2 (fun _ => ?_)
            rw [hfs] at hnr1
            simpa using hnr1

/-- C1 amended: along any single job's write sequence of the shape the
worker produces - the creation write, then progress-hook writes whose
events never report `downloading` after `finished` (the collaborator
behaviour the spec assumes), then at most one terminal write - the stored
status moves only forward along
`starting → downloading → processing → completed`, or to `error`, and a
terminal status is written last, so it never changes.  (Without the
no-restart assumption the hook moves `processing` back to `downloading`,
see the counterexample.) -/
theorem C1_monotone_without_restart (hooks : List HookEvent) (t : TermWrite)
    (hnr : noRestartB hooks = true) :
    chainB allowedB
      (statusTrace none (Ev.create :: (hooks.map Ev.hook ++ termEvs t))) = true := by
  rw [show statusTrace none (Ev.create :: (hooks.map Ev.hook ++ termEvs t)) =
      statusOf none :: statusTrace (some startingRec) (hooks.map Ev.hook ++ termEvs t)
      from rfl]
  rw [chainB_cons_trace, Bool.and_eq_true]
  refine ⟨rfl, ?_⟩
  exact hookRun_chain hooks (some startingRec) t rfl hnr
    (fun h => absurd h (by decide))

/-- Witness for the amended C1: one downloading hook event, one finished
hook event, then the worker's completed write. -/
theorem C1_monotone_without_restart_witness :
    noRestartB [⟨"downloading", some 50, some 100, none, none⟩,
        ⟨"finished", none, none, none, some "/tmp/yt_download_1_clip.mp4"⟩] = true ∧
    chainB allowedB
        (statusTrace none (Ev.create ::
          (([⟨"downloading", some 50, some 100, none, none⟩,
              ⟨"finished", none, none, none, some "/tmp/yt_download_1_clip.mp4"⟩] :
              List HookEvent).map Ev.hook ++
            termEvs (TermWrite.complete "clip.mp4" "/tmp/yt_download_1_clip.mp4")))) =
      true :=
  ⟨by decide,
   C1_monotone_without_restart
     [⟨"downloading", some 50, some 100, none, none⟩,
       ⟨"finished", none, none, none, some "/tmp/yt_download_1_clip.mp4"⟩]
     (TermWrite.complete "clip.mp4" "/tmp/yt_download_1_clip.mp4") (by decide)⟩
